import Mathlib

/-!
Shallow embedding of the thread-coordination core and the two collective
kernels of `src/mylib.c` / `src/mylib.h`.

Modeling conventions.

* C `int` values are modeled as unbounded `Int`; C truncating integer
  division (C99 `/` on `int`) is `Int.tdiv`.  Arithmetic overflow of the
  32-bit `int` type is out of scope: the spec states all range properties
  over mathematical integers.
* C `double` values are modeled as exact rationals `ℚ`; the claims under
  consideration are about exact arithmetic and about the fixed reduction
  order, not about floating-point rounding.
* C arrays are modeled as total functions (`Int → ℚ` for vectors indexed
  by `int`, with the claims constraining only indices in `[0, vsize)`).
* `malloc` is modeled abstractly: an allocation returns a fresh abstract
  address (a counter) and adds it to a set of live allocations; the byte
  count and buffer contents are not tracked at this level.  A `malloc`
  whose result is uninitialized memory is modeled by an arbitrary
  ("junk") value supplied by the environment.
* Concurrency: the barrier (`mylib_ThreadControl_sync`, which merely
  invokes the externally supplied callback) is modeled as a phase
  separator.  A collective operation is a sequence of phases; within one
  phase the participating threads' actions run in an arbitrary order
  (quantified as a `sched` list containing each thread id exactly once,
  i.e. a permutation of `[0, tsize)`).  For the numeric kernels the same
  order-quantification models the fact that the threads write disjoint
  locations (their own index range, respectively their own scratch slot).
-/

namespace Mylib

/-- Thread factory struct (`mylib_ThreadFactory_internal`, `src/mylib.h`
lines 6-16).  `sync` is the registered synchronization callback, an opaque
external capability modeled as an optional abstract identifier (`none`
models a null function pointer).  `sync_data` and `shared_data` are
`void *` fields, modeled as optional abstract addresses (`none` = null). -/
structure mylib_ThreadFactory where
  sync : Option ℕ
  sync_data : Option ℕ
  shared_data : Option ℕ
deriving DecidableEq

/-- Thread control struct (`mylib_ThreadControl_internal`, `src/mylib.h`
lines 24-32): thread id, thread count, and a reference to the shared
factory (an opaque address here; the kernels never dereference it in the
model: the factory state lives in `MallocState`). -/
structure mylib_ThreadControl where
  tid : Int
  tsize : Int
  shared_context : Option ℕ
deriving DecidableEq

/-- Work splitting, `src/mylib.c` line 81 (and identically line 105):
`int elements_per_thread = (vsize - 1) / tcontrol->tsize + 1;` with C
truncating division. -/
def elements_per_thread (vsize tsize : Int) : Int :=
  (vsize - 1).tdiv tsize + 1

/-- Work splitting, `src/mylib.c` line 82 (and line 106):
`int begin_index = tcontrol->tid * elements_per_thread;`. -/
def begin_index (tid vsize tsize : Int) : Int :=
  tid * elements_per_thread vsize tsize

/-- Work splitting, `src/mylib.c` lines 83-86 (and lines 107-110):
`int end_index = (tid + 1) * elements_per_thread; if (end_index > vsize)
end_index = vsize;`. -/
def end_index (tid vsize tsize : Int) : Int :=
  if vsize < (tid + 1) * elements_per_thread vsize tsize then vsize
  else (tid + 1) * elements_per_thread vsize tsize

/-- The indices visited by `for (i = begin_index; i < end_index; ++i)`, in
increasing order (empty when `end_index ≤ begin_index`). -/
def loopIndices (tid vsize tsize : Int) : List Int :=
  (List.range (end_index tid vsize tsize - begin_index tid vsize tsize).toNat).map
    (fun (k : ℕ) => begin_index tid vsize tsize + (k : Int))

/-- Number of loop iterations thread `tid` performs (the size of its index
range). -/
def rangeSize (tid vsize tsize : Int) : ℕ :=
  (loopIndices tid vsize tsize).length

/-- The thread ids `0, 1, ..., tsize - 1` of one parallel region. -/
def threadIds (tsize : Int) : List Int :=
  (List.range tsize.toNat).map (fun (k : ℕ) => (k : Int))

/-- A schedule is an order in which the `tsize` threads get to run (one
phase each, or one whole kernel each for the disjoint-write kernels): a
list containing every id of `[0, tsize)` exactly once. -/
def validSched (tsize : Int) (sched : List Int) : Prop :=
  sched.Perm (threadIds tsize)

instance (tsize : Int) (sched : List Int) : Decidable (validSched tsize sched) :=
  inferInstanceAs (Decidable (sched.Perm (threadIds tsize)))

/-- `mylib_vector_add` (`src/mylib.c` lines 77-91), the body executed by
one thread: `for (i = begin_index; i < end_index; ++i) vresult[i] = v1[i]
+ v2[i];`.  The function reads `tcontrol->tid` and `tcontrol->tsize` only. -/
def mylib_vector_add (tcontrol : mylib_ThreadControl) (v1 v2 vresult : Int → ℚ)
    (vsize : Int) : Int → ℚ :=
  (loopIndices tcontrol.tid vsize tcontrol.tsize).foldl
    (fun w i => Function.update w i (v1 i + v2 i)) vresult

/-- Every thread of the region executes `mylib_vector_add` once, in the
order given by `sched`.  The threads write pairwise disjoint index ranges,
so quantifying over all schedules covers every interleaving of the
concurrent writes. -/
def run_vector_add (sched : List Int) (tsize : Int) (v1 v2 vresult : Int → ℚ)
    (vsize : Int) : Int → ℚ :=
  sched.foldl
    (fun w t =>
      mylib_vector_add { tid := t, tsize := tsize, shared_context := none } v1 v2 w vsize)
    vresult

/-- Per-thread accumulation part of `mylib_vector_dot` (`src/mylib.c`
lines 101-114): `thread_results[tid] = 0;` followed by
`for (i = begin_index; i < end_index; ++i) thread_results[tid] +=
v1[i] * v2[i];`.  The thread touches only its own scratch slot. -/
def mylib_vector_dot_accumulate (tcontrol : mylib_ThreadControl) (v1 v2 : Int → ℚ)
    (vsize : Int) (thread_results : Int → ℚ) : Int → ℚ :=
  (loopIndices tcontrol.tid vsize tcontrol.tsize).foldl
    (fun s i => Function.update s tcontrol.tid (s tcontrol.tid + v1 i * v2 i))
    (Function.update thread_results tcontrol.tid 0)

/-- Every thread of the region runs its accumulation once, in the order
given by `sched` (disjoint slots, so this covers every interleaving).
`thread_results` is the initial, uninitialized content of the scratch
buffer obtained from the shared allocation. -/
def run_dot_accumulate (sched : List Int) (tsize : Int) (v1 v2 : Int → ℚ)
    (vsize : Int) (thread_results : Int → ℚ) : Int → ℚ :=
  sched.foldl
    (fun s t =>
      mylib_vector_dot_accumulate { tid := t, tsize := tsize, shared_context := none }
        v1 v2 vsize s)
    thread_results

/-- The indices `1, 2, ..., tsize - 1` visited by the reduction loop
`for (i = 1; i < tcontrol->tsize; ++i)` of `src/mylib.c` line 121. -/
def reduceIndices (tsize : Int) : List Int :=
  (List.range (tsize - 1).toNat).map (fun (k : ℕ) => 1 + (k : Int))

/-- Reduction performed by thread 0 after the barrier (`src/mylib.c` lines
119-125): `thread_results[0] += thread_results[i]` for `i = 1 .. tsize-1`
in increasing order, then `*dotresult = thread_results[0]`.  The loop
writes only slot 0 and reads only slots `≥ 1`, so the running value of
`thread_results[0]` is exactly the fold accumulator; the returned scalar
is the value written to `*dotresult`. -/
def mylib_vector_dot_reduce (tsize : Int) (thread_results : Int → ℚ) : ℚ :=
  (reduceIndices tsize).foldl (fun acc i => acc + thread_results i) (thread_results 0)

/-- The final scalar written to `*dotresult` when all `tsize` threads
execute `mylib_vector_dot` (`src/mylib.c` lines 94-132) once: per-thread
accumulation into the shared scratch buffer (initial junk contents
`thread_results`), barrier, then the thread-0 reduction. -/
def mylib_vector_dot (sched : List Int) (tsize : Int) (v1 v2 : Int → ℚ)
    (vsize : Int) (thread_results : Int → ℚ) : ℚ :=
  mylib_vector_dot_reduce tsize (run_dot_accumulate sched tsize v1 v2 vsize thread_results)

/-- Exact sum a single thread contributes: `Σ v1[i]*v2[i]` over its index
range (proof-side abbreviation). -/
def threadSum (tsize vsize : Int) (v1 v2 : Int → ℚ) (t : Int) : ℚ :=
  ((loopIndices t vsize tsize).map (fun i => v1 i * v2 i)).sum

/-- Proof-side ℕ counterpart of `elements_per_thread` (they agree for
`vsize ≥ 1`; for `vsize = 0` both yield an empty index range). -/
def natEpt (v t : ℕ) : ℕ := (v - 1) / t + 1

/-- Proof-side ℕ counterpart of `begin_index` for chunk number `t` and
chunk length `e`. -/
def natBegin (e t : ℕ) : ℕ := t * e

/-- Proof-side ℕ counterpart of `end_index`. -/
def natEnd (e v t : ℕ) : ℕ := min ((t + 1) * e) v

/-- Proof-side ℕ counterpart of `loopIndices`. -/
def natChunk (e v t : ℕ) : List ℕ :=
  (List.range (natEnd e v t - natBegin e t)).map (fun k => natBegin e t + k)

/-- Primitive steps of the shared-buffer protocol, i.e. the non-barrier
statements of `mylib_ThreadControl_malloc` / `mylib_ThreadControl_free`
(`src/mylib.c` lines 45-64).  `allocShared` is line 50
(`tcontrol->shared_context->shared_data = malloc(num_bytes);`),
`readShared` is line 54 (`*ptr = tcontrol->shared_context->shared_data;`,
the result landing in the calling thread's local `ptr`), `freeAddr` is
line 63 (`free(ptr);`). -/
inductive Act where
  | allocShared (num_bytes : Int)
  | readShared (tid : Int)
  | freeAddr (p : Option ℕ)
deriving DecidableEq

/-- Global state of the protocol model: the shared factory, the per-thread
control objects, an abstract allocator (fresh-address counter `next` plus
the list of live allocations, with `allocOk` saying whether `malloc`
succeeds in this run), and each thread's local output pointer `*ptr`. -/
structure MallocState where
  factory : mylib_ThreadFactory
  controls : Int → mylib_ThreadControl
  next : ℕ
  live : List ℕ
  allocOk : Bool
  locals : Int → Option ℕ

/-- Effect of one primitive step on the global state.  An allocation
stores the fresh address (or null on failure) straight into the factory's
`shared_data` field, exactly as line 50 of the source does; a read copies
`shared_data` into the thread's local pointer; a free removes the given
address from the live set (`free(NULL)` is a no-op). -/
def runAct (s : MallocState) : Act → MallocState
  | Act.allocShared _ =>
      if s.allocOk then
        { s with factory := { s.factory with shared_data := some s.next },
                 next := s.next + 1,
                 live := s.next :: s.live }
      else
        { s with factory := { s.factory with shared_data := none } }
  | Act.readShared t =>
      { s with locals := Function.update s.locals t s.factory.shared_data }
  | Act.freeAddr p =>
      match p with
      | some a => { s with live := s.live.erase a }
      | none => s

/-- One thread runs all its steps of the current phase. -/
def runThreadPhase (prog : Int → List Act) (s : MallocState) (t : Int) : MallocState :=
  (prog t).foldl runAct s

/-- One barrier-delimited phase: the threads run their steps in the order
given by `sched` (the claims quantify over all valid schedules). -/
def runPhase (prog : Int → List Act) (sched : List Int) (s : MallocState) : MallocState :=
  sched.foldl (runThreadPhase prog) s

/-- The barrier-phase structure of `mylib_ThreadControl_malloc`
(`src/mylib.c` lines 45-55) for one participating thread: nothing before
the first `mylib_ThreadControl_sync`, the `tid == 0` allocation between
the two syncs, the unconditional read of `shared_data` after the second
sync.  Phase boundaries correspond exactly to the two sync calls (lines 47
and 52); `mylib_ThreadControl_sync` itself only invokes the registered
external callback (lines 67-70) and is modeled as the phase separator. -/
def mylib_ThreadControl_malloc_phases (tcontrol : mylib_ThreadControl)
    (num_bytes : Int) : List (List Act) :=
  [[],
   if tcontrol.tid = 0 then [Act.allocShared num_bytes] else [],
   [Act.readShared tcontrol.tid]]

/-- The barrier-phase structure of `mylib_ThreadControl_free`
(`src/mylib.c` lines 58-64): one sync (line 60), then only the `tid == 0`
thread calls `free(ptr)` (lines 62-63).  There is no trailing barrier. -/
def mylib_ThreadControl_free_phases (tcontrol : mylib_ThreadControl)
    (ptr : Option ℕ) : List (List Act) :=
  [[],
   if tcontrol.tid = 0 then [Act.freeAddr ptr] else []]

/-- Steps of phase `k` of the collective malloc, per thread. -/
def malloc_phase (s : MallocState) (num_bytes : Int) (k : ℕ) : Int → List Act :=
  fun t => (mylib_ThreadControl_malloc_phases (s.controls t) num_bytes).getD k []

/-- All `tsize` threads execute `mylib_ThreadControl_malloc` once; `m1`,
`m2`, `m3` are the intra-phase schedules of the three barrier-delimited
phases. -/
def run_malloc (tsize num_bytes : Int) (m1 m2 m3 : List Int) (s : MallocState) :
    MallocState :=
  runPhase (malloc_phase s num_bytes 2) m3
    (runPhase (malloc_phase s num_bytes 1) m2
      (runPhase (malloc_phase s num_bytes 0) m1 s))

/-- Steps of phase `k` of the collective free, per thread; `ptrArg t` is
the pointer value thread `t` passes as the `ptr` argument. -/
def free_phase (s : MallocState) (ptrArg : Int → Option ℕ) (k : ℕ) : Int → List Act :=
  fun t => (mylib_ThreadControl_free_phases (s.controls t) (ptrArg t)).getD k []

/-- All threads execute `mylib_ThreadControl_free` once, each passing its
own pointer argument `ptrArg t`; `f1`, `f2` are the schedules of the two
phases around the single sync. -/
def run_free (ptrArg : Int → Option ℕ) (f1 f2 : List Int) (s : MallocState) :
    MallocState :=
  runPhase (free_phase s ptrArg 1) f2 (runPhase (free_phase s ptrArg 0) f1 s)

/-- Every participant performs `mylib_ThreadControl_malloc` immediately
followed by `mylib_ThreadControl_free` on the same control, passing the
address the malloc returned to it (the scenario of claim C9 and of
`mylib_vector_dot`). -/
def run_malloc_then_free (tsize num_bytes : Int) (m1 m2 m3 f1 f2 : List Int)
    (s : MallocState) : MallocState :=
  run_free (fun t => (run_malloc tsize num_bytes m1 m2 m3 s).locals t) f1 f2
    (run_malloc tsize num_bytes m1 m2 m3 s)

/-- `mylib_ThreadFactory_create` (`src/mylib.c` lines 12-15):
`*tfactory = (mylib_ThreadFactory)malloc(sizeof(mylib_ThreadFactory_internal));`
and nothing else.  `alloc` is the allocator's outcome: `none` models a
failed `malloc` (null), `some junk` a successful allocation whose
*uninitialized* contents are `junk`.  The first component of the result is
the pointer stored into `*tfactory`.  The C function is declared `int` but
contains no return statement, so its return value is indeterminate; it is
modeled by the unconstrained input `ret`, returned as the second
component. -/
def mylib_ThreadFactory_create (alloc : Option mylib_ThreadFactory) (ret : Int) :
    Option mylib_ThreadFactory × Int :=
  (alloc, ret)

/-- `mylib_ThreadFactory_create_control` (`src/mylib.c` lines 25-35):
allocate a control, then assign `tid = 0`, `tsize = 0`,
`shared_context = tfactory`, and store the pointer.  When the allocation
fails the code dereferences the null pointer at line 30 (`new_tcontrol->tid
= 0;`): there is no defined result at all, modeled as `none`.  On success
every field of the junk contents is overwritten, and the indeterminate
return value is `ret` (no return statement in the source). -/
def mylib_ThreadFactory_create_control (tfactory : Option ℕ)
    (alloc : Option mylib_ThreadControl) (ret : Int) :
    Option (mylib_ThreadControl × Int) :=
  match alloc with
  | none => none
  | some _ =>
      some ({ tid := 0, tsize := 0, shared_context := tfactory }, ret)

/-- A concrete initial protocol state, used to instantiate the theorems on
a closed input: a factory with a registered callback and an empty shared
slot, controls with tid = t and tsize = 2, a fresh allocator with no live
allocations, and null local pointers. -/
def sampleState : MallocState where
  factory := { sync := some 0, sync_data := none, shared_data := none }
  controls := fun t => { tid := t, tsize := 2, shared_context := some 0 }
  next := 0
  live := []
  allocOk := true
  locals := fun _ => none

/-- The same concrete state in a run where `malloc` fails. -/
def sampleStateFail : MallocState :=
  { sampleState with allocOk := false }

/-! Helper lemmas about the index ranges. -/

-- Membership in a half-open integer interval written as an offset range.
theorem mem_offsetRange (b e i : Int) :
    i ∈ (List.range (e - b).toNat).map (fun (k : ℕ) => b + (k : Int)) ↔ b ≤ i ∧ i < e := by
  simp only [List.mem_map, List.mem_range]
  constructor
  · rintro ⟨k, hk, rfl⟩
    omega
  · intro h
    exact ⟨(i - b).toNat, by omega, by omega⟩

theorem loopIndices_mem (tid vsize tsize i : Int) :
    i ∈ loopIndices tid vsize tsize ↔
      begin_index tid vsize tsize ≤ i ∧ i < end_index tid vsize tsize :=
  mem_offsetRange _ _ _

theorem end_index_le (tid vsize tsize : Int) : end_index tid vsize tsize ≤ vsize := by
  rw [end_index]
  split <;> omega

-- Agreement of the C computation with the ℕ-level chunk data for vsize ≥ 1.
theorem ept_eq_natEpt (vsize tsize : Int) (ht : 1 ≤ tsize) (hv1 : 1 ≤ vsize) :
    elements_per_thread vsize tsize = ((natEpt vsize.toNat tsize.toNat : ℕ) : Int) := by
  have key : (vsize - 1).tdiv tsize = (((vsize.toNat - 1) / tsize.toNat : ℕ) : Int) := by
    conv_lhs =>
      rw [show vsize - 1 = ((vsize.toNat - 1 : ℕ) : Int) from by omega,
        show tsize = ((tsize.toNat : ℕ) : Int) from by omega]
    rw [← Int.ofNat_tdiv]
  rw [elements_per_thread, natEpt, key]
  push_cast
  ring

theorem ept_nonneg (vsize tsize : Int) (ht : 1 ≤ tsize) (hv : 0 ≤ vsize) :
    0 ≤ elements_per_thread vsize tsize := by
  rcases lt_or_le 0 vsize with h1 | h1
  · rw [ept_eq_natEpt vsize tsize ht h1]
    exact Int.ofNat_nonneg _
  · have hv0 : vsize = 0 := le_antisymm h1 hv
    subst hv0
    rw [elements_per_thread]
    have key : (0 - 1 : Int).tdiv tsize = -(((1 / tsize.toNat : ℕ) : Int)) := by
      conv_lhs =>
        rw [show (0 - 1 : Int) = -(((1 : ℕ) : Int)) from by norm_num,
          show tsize = ((tsize.toNat : ℕ) : Int) from by omega]
      rw [Int.neg_tdiv, ← Int.ofNat_tdiv]
    rw [key]
    have h3 : (1 : ℕ) / tsize.toNat ≤ 1 := Nat.div_le_self 1 _
    generalize (1 : ℕ) / tsize.toNat = q at h3 ⊢
    omega

theorem begin_index_nonneg (tid vsize tsize : Int) (ht : 1 ≤ tsize) (hv : 0 ≤ vsize)
    (htid : 0 ≤ tid) : 0 ≤ begin_index tid vsize tsize :=
  mul_nonneg htid (ept_nonneg vsize tsize ht hv)

theorem begin_index_eq (tid vsize tsize : Int) (ht : 1 ≤ tsize) (hv1 : 1 ≤ vsize)
    (htid : 0 ≤ tid) :
    begin_index tid vsize tsize
      = ((natBegin (natEpt vsize.toNat tsize.toNat) tid.toNat : ℕ) : Int) := by
  rw [begin_index, ept_eq_natEpt vsize tsize ht hv1, natBegin]
  conv_lhs => rw [show tid = ((tid.toNat : ℕ) : Int) from by omega]
  push_cast
  ring

theorem end_index_eq (tid vsize tsize : Int) (ht : 1 ≤ tsize) (hv1 : 1 ≤ vsize)
    (htid : 0 ≤ tid) :
    end_index tid vsize tsize
      = ((natEnd (natEpt vsize.toNat tsize.toNat) vsize.toNat tid.toNat : ℕ) : Int) := by
  have h1 : (tid + 1) * elements_per_thread vsize tsize
      = (((tid.toNat + 1) * natEpt vsize.toNat tsize.toNat : ℕ) : Int) := by
    rw [ept_eq_natEpt vsize tsize ht hv1]
    conv_lhs => rw [show tid = ((tid.toNat : ℕ) : Int) from by omega]
    push_cast
    ring
  rw [end_index, h1, natEnd]
  split <;> omega

theorem natChunk_mem (e v t i : ℕ) :
    i ∈ natChunk e v t ↔ natBegin e t ≤ i ∧ i < natEnd e v t := by
  rw [natChunk]
  simp only [List.mem_map, List.mem_range]
  constructor
  · rintro ⟨k, hk, rfl⟩
    omega
  · intro h
    exact ⟨i - natBegin e t, by omega, by omega⟩

theorem natEpt_pos (v t : ℕ) : 1 ≤ natEpt v t :=
  Nat.le_add_left 1 ((v - 1) / t)

-- The whole index set [0, v) is covered by the first t chunks.
theorem natEpt_bound (v t : ℕ) (ht : 1 ≤ t) : v ≤ t * natEpt v t := by
  have key : v - 1 < t * natEpt v t := by
    calc v - 1 = t * ((v - 1) / t) + (v - 1) % t := (Nat.div_add_mod _ _).symm
      _ < t * ((v - 1) / t) + t := Nat.add_lt_add_left (Nat.mod_lt _ ht) _
      _ = t * natEpt v t := (Nat.mul_succ t _).symm
  exact Nat.le_of_pred_lt key

-- Every i < v belongs to chunk number i / e, provided the chunks cover [0, v).
theorem natPartition_mem (e v t i : ℕ) (he : 1 ≤ e) (hve : v ≤ t * e) (hi : i < v) :
    i / e < t ∧ natBegin e (i / e) ≤ i ∧ i < natEnd e v (i / e) := by
  refine ⟨?_, ?_, ?_⟩
  · exact (Nat.div_lt_iff_lt_mul he).mpr (lt_of_lt_of_le hi hve)
  · exact Nat.div_mul_le_self i e
  · refine lt_min ?_ hi
    have h2 := Nat.div_add_mod i e
    have h3 := Nat.mod_lt i he
    calc i = e * (i / e) + i % e := h2.symm
      _ < e * (i / e) + e := Nat.add_lt_add_left h3 _
      _ = e * (i / e + 1) := (Nat.mul_succ e _).symm
      _ = (i / e + 1) * e := Nat.mul_comm _ _

-- No i belongs to two different chunks.
theorem natPartition_unique (e v i td : ℕ) (he : 1 ≤ e)
    (h1 : natBegin e td ≤ i) (h2 : i < natEnd e v td) : td = i / e := by
  have hlt : i < (td + 1) * e := lt_of_lt_of_le h2 (Nat.min_le_left _ _)
  have hge : td * e ≤ i := h1
  refine le_antisymm ?_ ?_
  · exact (Nat.le_div_iff_mul_le he).mpr hge
  · exact Nat.lt_succ_iff.mp ((Nat.div_lt_iff_lt_mul he).mpr hlt)

-- Concatenating the chunks in order yields exactly [0, min (n*e) v).
theorem natChunk_flatten (e v : ℕ) :
    ∀ n : ℕ, ((List.range n).map (natChunk e v)).flatten = List.range (min (n * e) v)
  | 0 => by simp
  | n + 1 => by
    rw [List.range_succ, List.map_append, List.flatten_append,
      natChunk_flatten e v n]
    simp only [List.map_cons, List.map_nil, List.flatten_cons, List.flatten_nil,
      List.append_nil]
    rcases Nat.le_total (n * e) v with h | h
    · have hmin : min (n * e) v = n * e := Nat.min_eq_left h
      have hBle : n * e ≤ min ((n + 1) * e) v := by
        have h1 : n * e ≤ (n + 1) * e := Nat.mul_le_mul_right e (Nat.le_succ n)
        exact le_min h1 h
      rw [hmin, natChunk, natBegin, natEnd]
      conv_rhs => rw [show min ((n + 1) * e) v
        = n * e + (min ((n + 1) * e) v - n * e) from by omega]
      rw [List.range_add]
    · have hmin : min (n * e) v = v := Nat.min_eq_right h
      have hmin2 : min ((n + 1) * e) v = v := by
        have h1 : n * e ≤ (n + 1) * e := Nat.mul_le_mul_right e (Nat.le_succ n)
        omega
      have hempty : natChunk e v n = [] := by
        rw [natChunk, natBegin, natEnd, hmin2,
          show v - n * e = 0 from by omega]
        rfl
      rw [hmin, hmin2, hempty, List.append_nil]

-- Summing a function chunk by chunk equals summing it over [0, v).
theorem sum_map_chunks (g : ℕ → ℚ) (e v n : ℕ) (h : v ≤ n * e) :
    ((List.range n).map (fun t => ((natChunk e v t).map g).sum)).sum
      = ((List.range v).map g).sum := by
  have h1 : (List.range n).map (fun t => ((natChunk e v t).map g).sum)
      = List.map List.sum (List.map (List.map g) ((List.range n).map (natChunk e v))) := by
    simp [List.map_map, Function.comp]
  rw [h1, ← List.sum_flatten, ← List.map_flatten, natChunk_flatten,
    Nat.min_eq_right h]

theorem list_range_sum (g : ℕ → ℚ) (n : ℕ) :
    ((List.range n).map g).sum = ∑ i ∈ Finset.range n, g i := by
  induction n with
  | zero => simp
  | succ n ih => rw [List.range_succ, List.map_append, List.sum_append,
      Finset.sum_range_succ, ih]; simp

theorem map_cast_offset (b : ℕ) :
    ∀ l : List ℕ, (l.map (fun k => b + k)).map (fun (k : ℕ) => (k : Int))
      = l.map (fun (k : ℕ) => ((b : ℕ) : Int) + (k : Int))
  | [] => rfl
  | k :: l => by
    simp only [List.map_cons, map_cast_offset b l, List.cons.injEq, and_true]
    push_cast
    ring

-- For vsize = 0, every thread's loop is empty (for tsize = 1 the C value of
-- elements_per_thread is 0, for tsize ≥ 2 it is 1; either way the clamped
-- range is empty).
theorem loopIndices_vzero (tid tsize : Int) (ht : 1 ≤ tsize) (htid : 0 ≤ tid) :
    loopIndices tid 0 tsize = [] := by
  have hb : 0 ≤ begin_index tid 0 tsize := begin_index_nonneg tid 0 tsize ht le_rfl htid
  have hend : end_index tid 0 tsize ≤ 0 := end_index_le tid 0 tsize
  rw [loopIndices, show (end_index tid 0 tsize - begin_index tid 0 tsize).toNat = 0
    from by omega]
  rfl

-- The C loop indices are exactly the ℕ-level chunk, cast to Int.
theorem loopIndices_eq_natChunk (tid vsize tsize : Int) (ht : 1 ≤ tsize) (hv : 0 ≤ vsize)
    (htid : 0 ≤ tid) :
    loopIndices tid vsize tsize
      = (natChunk (natEpt vsize.toNat tsize.toNat) vsize.toNat tid.toNat).map
          (fun (k : ℕ) => (k : Int)) := by
  rcases lt_or_le 0 vsize with hv1 | hv1
  · rw [loopIndices, natChunk,
      begin_index_eq tid vsize tsize ht hv1 htid,
      end_index_eq tid vsize tsize ht hv1 htid,
      show ((((natEnd (natEpt vsize.toNat tsize.toNat) vsize.toNat tid.toNat : ℕ) : Int))
            - (((natBegin (natEpt vsize.toNat tsize.toNat) tid.toNat : ℕ) : Int))).toNat
          = natEnd (natEpt vsize.toNat tsize.toNat) vsize.toNat tid.toNat
            - natBegin (natEpt vsize.toNat tsize.toNat) tid.toNat from by omega,
      map_cast_offset]
  · have hv0 : vsize = 0 := le_antisymm hv1 hv
    subst hv0
    rw [loopIndices_vzero tid tsize ht htid]
    rw [natChunk]
    have h0 : natEnd (natEpt (0 : Int).toNat tsize.toNat) (0 : Int).toNat tid.toNat
        - natBegin (natEpt (0 : Int).toNat tsize.toNat) tid.toNat = 0 := by
      rw [natEnd]
      omega
    rw [h0]
    rfl

theorem mem_threadIds (tsize t : Int) :
    t ∈ threadIds tsize ↔ 0 ≤ t ∧ t < tsize := by
  rw [threadIds]
  simp only [List.mem_map, List.mem_range]
  constructor
  · rintro ⟨k, hk, rfl⟩
    omega
  · intro h
    exact ⟨t.toNat, by omega, by omega⟩

-- The region's thread ids are thread 0 followed by the reduction indices.
theorem threadIds_cons (tsize : Int) (ht : 1 ≤ tsize) :
    threadIds tsize = 0 :: reduceIndices tsize := by
  rw [threadIds, reduceIndices, show tsize.toNat = 1 + (tsize - 1).toNat from by omega,
    List.range_add, List.map_append, List.map_map]
  rw [show List.range 1 = [0] from rfl]
  simp only [List.map_cons, List.map_nil, Nat.cast_zero, List.singleton_append]
  congr 1

/-! Fold-evaluation lemmas for the two kernels. -/

theorem foldl_add_eq (f : Int → ℚ) :
    ∀ (l : List Int) (c : ℚ), l.foldl (fun a i => a + f i) c = c + (l.map f).sum
  | [], c => by simp
  | i :: l, c => by
    rw [List.foldl_cons, foldl_add_eq f l (c + f i)]
    simp [add_assoc]

theorem foldl_update_add (tid : Int) (g : Int → ℚ) :
    ∀ (l : List Int) (s : Int → ℚ),
      l.foldl (fun s i => Function.update s tid (s tid + g i)) s
        = Function.update s tid (s tid + (l.map g).sum)
  | [], s => by simp [Function.update_eq_self]
  | i :: l, s => by
    rw [List.foldl_cons, foldl_update_add tid g l _]
    simp only [Function.update_same, Function.update_idem, List.map_cons, List.sum_cons]
    rw [add_assoc]

-- A thread's whole accumulation step: zero the own slot, then add the
-- products of its range; only slot tid changes, and the new value does not
-- depend on the previous scratch contents.
theorem dot_accumulate_eq (tcontrol : mylib_ThreadControl) (v1 v2 : Int → ℚ)
    (vsize : Int) (s : Int → ℚ) :
    mylib_vector_dot_accumulate tcontrol v1 v2 vsize s
      = Function.update s tcontrol.tid (threadSum tcontrol.tsize vsize v1 v2 tcontrol.tid) := by
  rw [mylib_vector_dot_accumulate, foldl_update_add, threadSum]
  simp [Function.update_same, Function.update_idem]

theorem run_dot_accumulate_eval (tsize vsize : Int) (v1 v2 : Int → ℚ) :
    ∀ (sched : List Int) (s : Int → ℚ) (t : Int),
      run_dot_accumulate sched tsize v1 v2 vsize s t
        = if t ∈ sched then threadSum tsize vsize v1 v2 t else s t
  | [], s, t => by simp [run_dot_accumulate]
  | a :: l, s, t => by
    have hstep : run_dot_accumulate (a :: l) tsize v1 v2 vsize s
        = run_dot_accumulate l tsize v1 v2 vsize
            (mylib_vector_dot_accumulate { tid := a, tsize := tsize, shared_context := none }
              v1 v2 vsize s) := rfl
    rw [hstep, run_dot_accumulate_eval tsize vsize v1 v2 l _ t,
      dot_accumulate_eq]
    by_cases h1 : t ∈ l
    · rw [if_pos h1, if_pos (List.mem_cons_of_mem a h1)]
    · rw [if_neg h1]
      by_cases h2 : t = a
      · subst h2
        rw [Function.update_same, if_pos (List.mem_cons_self t l)]
      · rw [Function.update_noteq h2,
          if_neg (by simp [List.mem_cons, h1, h2])]

theorem dot_reduce_eval (tsize : Int) (ht : 1 ≤ tsize) (s : Int → ℚ) :
    mylib_vector_dot_reduce tsize s = ((threadIds tsize).map s).sum := by
  rw [mylib_vector_dot_reduce, foldl_add_eq, threadIds_cons tsize ht,
    List.map_cons, List.sum_cons]

-- The dot product over exact rationals equals the sequential sum, for any
-- thread count, any execution order and any initial scratch junk.
theorem dot_eq_sum (sched : List Int) (tsize vsize : Int) (v1 v2 s : Int → ℚ)
    (ht : 1 ≤ tsize) (hv : 0 ≤ vsize) (hs : validSched tsize sched) :
    mylib_vector_dot sched tsize v1 v2 vsize s
      = ∑ i ∈ Finset.range vsize.toNat, v1 (i : Int) * v2 (i : Int) := by
  rw [mylib_vector_dot, dot_reduce_eval tsize ht]
  have hscratch : ∀ t ∈ threadIds tsize,
      run_dot_accumulate sched tsize v1 v2 vsize s t = threadSum tsize vsize v1 v2 t := by
    intro t htm
    rw [run_dot_accumulate_eval, if_pos (hs.mem_iff.mpr htm)]
  rw [List.map_congr_left hscratch, threadIds, List.map_map]
  have hchunk : ∀ k ∈ List.range tsize.toNat,
      (threadSum tsize vsize v1 v2 ∘ fun (k : ℕ) => (k : Int)) k
        = ((natChunk (natEpt vsize.toNat tsize.toNat) vsize.toNat k).map
            (fun (j : ℕ) => v1 (j : Int) * v2 (j : Int))).sum := by
    intro k hk
    simp only [Function.comp_apply, threadSum]
    rw [loopIndices_eq_natChunk (k : Int) vsize tsize ht hv (by omega),
      show ((k : Int)).toNat = k from by omega, List.map_map]
    congr 1
  rw [List.map_congr_left hchunk,
    sum_map_chunks _ _ _ _ (natEpt_bound vsize.toNat tsize.toNat (by omega)),
    list_range_sum]

theorem add_fold_eval (v1 v2 : Int → ℚ) :
    ∀ (l : List Int) (w : Int → ℚ) (i : Int),
      (l.foldl (fun acc j => Function.update acc j (v1 j + v2 j)) w) i
        = if i ∈ l then v1 i + v2 i else w i
  | [], w, i => by simp
  | j :: l, w, i => by
    rw [List.foldl_cons, add_fold_eval v1 v2 l _ i]
    by_cases h1 : i ∈ l
    · rw [if_pos h1, if_pos (List.mem_cons_of_mem j h1)]
    · rw [if_neg h1]
      by_cases h2 : i = j
      · subst h2
        rw [Function.update_same, if_pos (List.mem_cons_self i l)]
      · rw [Function.update_noteq h2,
          if_neg (by simp [List.mem_cons, h1, h2])]

theorem run_vector_add_eval (tsize vsize : Int) (v1 v2 : Int → ℚ) :
    ∀ (sched : List Int) (w : Int → ℚ) (i : Int),
      run_vector_add sched tsize v1 v2 w vsize i
        = if ∃ t ∈ sched, i ∈ loopIndices t vsize tsize then v1 i + v2 i else w i
  | [], w, i => by simp [run_vector_add]
  | a :: l, w, i => by
    have hstep : run_vector_add (a :: l) tsize v1 v2 w vsize
        = run_vector_add l tsize v1 v2
            (mylib_vector_add { tid := a, tsize := tsize, shared_context := none }
              v1 v2 w vsize) vsize := rfl
    rw [hstep, run_vector_add_eval tsize vsize v1 v2 l _ i]
    have hbody : mylib_vector_add { tid := a, tsize := tsize, shared_context := none }
        v1 v2 w vsize i = if i ∈ loopIndices a vsize tsize then v1 i + v2 i else w i :=
      add_fold_eval v1 v2 _ w i
    by_cases h1 : ∃ t ∈ l, i ∈ loopIndices t vsize tsize
    · obtain ⟨t, htl, hti⟩ := h1
      rw [if_pos ⟨t, htl, hti⟩, if_pos ⟨t, List.mem_cons_of_mem a htl, hti⟩]
    · rw [if_neg h1, hbody]
      by_cases h2 : i ∈ loopIndices a vsize tsize
      · rw [if_pos h2, if_pos ⟨a, List.mem_cons_self a l, h2⟩]
      · rw [if_neg h2, if_neg ?_]
        rintro ⟨t, htl, hti⟩
        rcases List.mem_cons.mp htl with h3 | h3
        · exact h2 (h3 ▸ hti)
        · exact h1 ⟨t, h3, hti⟩

-- Every index of [0, vsize) is owned by some participating thread.
theorem exists_owner (tsize vsize i : Int) (ht : 1 ≤ tsize) (hi0 : 0 ≤ i)
    (hiv : i < vsize) :
    ∃ t ∈ threadIds tsize, i ∈ loopIndices t vsize tsize := by
  have hv : 0 ≤ vsize := by omega
  obtain ⟨hlt, hbg, hen⟩ := natPartition_mem (natEpt vsize.toNat tsize.toNat) vsize.toNat
    tsize.toNat i.toNat (natEpt_pos _ _) (natEpt_bound _ _ (by omega)) (by omega)
  refine ⟨((i.toNat / natEpt vsize.toNat tsize.toNat : ℕ) : Int), ?_, ?_⟩
  · rw [mem_threadIds]
    refine ⟨Int.ofNat_nonneg _, ?_⟩
    calc ((i.toNat / natEpt vsize.toNat tsize.toNat : ℕ) : Int)
        < ((tsize.toNat : ℕ) : Int) := by exact_mod_cast hlt
      _ = tsize := by omega
  · rw [loopIndices_eq_natChunk _ vsize tsize ht hv (Int.ofNat_nonneg _)]
    simp only [List.mem_map]
    refine ⟨i.toNat, ?_, by omega⟩
    rw [Int.toNat_natCast, natChunk_mem]
    exact ⟨hbg, hen⟩

/-! Helper lemmas for the barrier-phase protocol model. -/

-- A phase in which no thread has anything to do leaves the state alone.
theorem runPhase_nilProg (prog : Int → List Act) (h : ∀ t, prog t = []) :
    ∀ (sched : List Int) (s : MallocState), runPhase prog sched s = s
  | [], _ => rfl
  | a :: l, s => by
    rw [show runPhase prog (a :: l) s = runPhase prog l (runThreadPhase prog s a) from rfl,
      show runThreadPhase prog s a = s from by rw [runThreadPhase, h a]; rfl]
    exact runPhase_nilProg prog h l s

-- If only thread 0 has steps and the schedule never runs thread 0, the
-- phase is a no-op.
theorem runPhase_no0 (prog : Int → List Act) (h : ∀ t, t ≠ 0 → prog t = []) :
    ∀ (sched : List Int) (s : MallocState), sched.count 0 = 0 → runPhase prog sched s = s
  | [], _, _ => rfl
  | a :: l, s, hc => by
    rw [List.count_cons] at hc
    by_cases ha : a = 0
    · subst ha
      simp at hc
    · have hb : ((a == (0 : Int)) = false) := by simp [ha]
      rw [hb] at hc
      simp at hc
      rw [show runPhase prog (a :: l) s = runPhase prog l (runThreadPhase prog s a) from rfl,
        show runThreadPhase prog s a = s from by rw [runThreadPhase, h a ha]; rfl]
      exact runPhase_no0 prog h l s hc

-- If only thread 0 has steps and the schedule runs every thread exactly
-- once, the phase amounts to thread 0's steps alone (in whatever position
-- of the schedule thread 0 appears).
theorem runPhase_only0 (prog : Int → List Act) (h : ∀ t, t ≠ 0 → prog t = []) :
    ∀ (sched : List Int) (s : MallocState), sched.count 0 = 1 →
      runPhase prog sched s = runThreadPhase prog s 0
  | [], _, hc => by simp at hc
  | a :: l, s, hc => by
    rw [List.count_cons] at hc
    by_cases ha : a = 0
    · subst ha
      simp at hc
      rw [show runPhase prog ((0 : Int) :: l) s
        = runPhase prog l (runThreadPhase prog s 0) from rfl]
      exact runPhase_no0 prog h l _ hc
    · have hb : ((a == (0 : Int)) = false) := by simp [ha]
      rw [hb] at hc
      simp at hc
      rw [show runPhase prog (a :: l) s = runPhase prog l (runThreadPhase prog s a) from rfl,
        show runThreadPhase prog s a = s from by rw [runThreadPhase, h a ha]; rfl]
      exact runPhase_only0 prog h l s hc

-- A phase of pure reads changes only the thread-local pointers.
theorem runPhase_reads_state (prog : Int → List Act)
    (hprog : ∀ t, prog t = [Act.readShared t]) :
    ∀ (sched : List Int) (s : MallocState),
      (runPhase prog sched s).factory = s.factory ∧
      (runPhase prog sched s).next = s.next ∧
      (runPhase prog sched s).live = s.live ∧
      (runPhase prog sched s).allocOk = s.allocOk ∧
      (runPhase prog sched s).controls = s.controls
  | [], _ => ⟨rfl, rfl, rfl, rfl, rfl⟩
  | a :: l, s => by
    rw [show runPhase prog (a :: l) s = runPhase prog l (runThreadPhase prog s a) from rfl,
      show runThreadPhase prog s a
        = { s with locals := Function.update s.locals a s.factory.shared_data } from by
        rw [runThreadPhase, hprog a]; rfl]
    exact runPhase_reads_state prog hprog l _

theorem runPhase_reads_locals_not_mem (prog : Int → List Act)
    (hprog : ∀ t, prog t = [Act.readShared t]) :
    ∀ (sched : List Int) (s : MallocState) (t : Int), t ∉ sched →
      (runPhase prog sched s).locals t = s.locals t
  | [], _, _, _ => rfl
  | a :: l, s, t, hmem => by
    have ha : t ≠ a := fun hh => hmem (hh ▸ List.mem_cons_self a l)
    have hl : t ∉ l := fun hh => hmem (List.mem_cons_of_mem a hh)
    rw [show runPhase prog (a :: l) s = runPhase prog l (runThreadPhase prog s a) from rfl,
      show runThreadPhase prog s a
        = { s with locals := Function.update s.locals a s.factory.shared_data } from by
        rw [runThreadPhase, hprog a]; rfl,
      runPhase_reads_locals_not_mem prog hprog l _ t hl]
    exact Function.update_noteq ha _ _

-- After a phase of pure reads, every thread that was scheduled holds the
-- (unchanged) shared address in its local pointer.
theorem runPhase_reads_locals_mem (prog : Int → List Act)
    (hprog : ∀ t, prog t = [Act.readShared t]) :
    ∀ (sched : List Int) (s : MallocState) (t : Int), t ∈ sched →
      (runPhase prog sched s).locals t = s.factory.shared_data
  | [], _, t, hmem => absurd hmem (List.not_mem_nil t)
  | a :: l, s, t, hmem => by
    rw [show runPhase prog (a :: l) s = runPhase prog l (runThreadPhase prog s a) from rfl,
      show runThreadPhase prog s a
        = { s with locals := Function.update s.locals a s.factory.shared_data } from by
        rw [runThreadPhase, hprog a]; rfl]
    by_cases h1 : t ∈ l
    · exact runPhase_reads_locals_mem prog hprog l _ t h1
    · have ht : t = a := by
        rcases List.mem_cons.mp hmem with h2 | h2
        · exact h2
        · exact absurd h2 h1
      subst ht
      rw [runPhase_reads_locals_not_mem prog hprog l _ t h1]
      exact Function.update_same t _ _

-- A phase consisting only of free steps touches only the live set.
theorem runPhase_free_frame (prog : Int → List Act)
    (h : ∀ t, prog t = [] ∨ ∃ p, prog t = [Act.freeAddr p]) :
    ∀ (sched : List Int) (s : MallocState),
      (runPhase prog sched s).factory = s.factory ∧
      (runPhase prog sched s).controls = s.controls ∧
      (runPhase prog sched s).locals = s.locals ∧
      (runPhase prog sched s).next = s.next ∧
      (runPhase prog sched s).allocOk = s.allocOk
  | [], _ => ⟨rfl, rfl, rfl, rfl, rfl⟩
  | a :: l, s => by
    have hstep : (runThreadPhase prog s a).factory = s.factory ∧
        (runThreadPhase prog s a).controls = s.controls ∧
        (runThreadPhase prog s a).locals = s.locals ∧
        (runThreadPhase prog s a).next = s.next ∧
        (runThreadPhase prog s a).allocOk = s.allocOk := by
      rcases h a with h1 | ⟨p, h1⟩
      · rw [runThreadPhase, h1]
        exact ⟨rfl, rfl, rfl, rfl, rfl⟩
      · rw [runThreadPhase, h1]
        cases p
        · exact ⟨rfl, rfl, rfl, rfl, rfl⟩
        · exact ⟨rfl, rfl, rfl, rfl, rfl⟩
    obtain ⟨f1, f2, f3, f4, f5⟩ := hstep
    obtain ⟨g1, g2, g3, g4, g5⟩ := runPhase_free_frame prog h l (runThreadPhase prog s a)
    rw [show runPhase prog (a :: l) s = runPhase prog l (runThreadPhase prog s a) from rfl]
    exact ⟨g1.trans f1, g2.trans f2, g3.trans f3, g4.trans f4, g5.trans f5⟩

theorem count_range_cast (n : ℕ) (t : Int) :
    ((List.range n).map (fun (k : ℕ) => (k : Int))).count t
      = if 0 ≤ t ∧ t < (n : Int) then 1 else 0 := by
  induction n with
  | zero =>
    rw [if_neg (by omega)]
    rfl
  | succ n ih =>
    rw [List.range_succ, List.map_append, List.count_append, ih]
    simp only [List.map_cons, List.map_nil, List.count_cons, List.count_nil, beq_iff_eq]
    split_ifs <;> omega

theorem count_threadIds (tsize t : Int) :
    (threadIds tsize).count t = if 0 ≤ t ∧ t < tsize then 1 else 0 := by
  rw [threadIds, count_range_cast]
  split_ifs <;> omega

theorem validSched_count (tsize : Int) (sched : List Int) (h : validSched tsize sched)
    (t : Int) : sched.count t = if 0 ≤ t ∧ t < tsize then 1 else 0 := by
  rw [validSched] at h
  rw [h.count_eq t]
  exact count_threadIds tsize t

theorem validSched_mem (tsize : Int) (sched : List Int) (h : validSched tsize sched)
    (t : Int) : t ∈ sched ↔ 0 ≤ t ∧ t < tsize := by
  rw [validSched] at h
  rw [h.mem_iff]
  exact mem_threadIds tsize t

-- Full effect of the collective malloc when the allocation succeeds: the
-- fresh address lands in the factory's shared slot and in every
-- participant's local pointer; exactly one allocation happens; nothing
-- else changes.
theorem run_malloc_spec_ok (tsize n : Int) (m1 m2 m3 : List Int) (s : MallocState)
    (ht : 1 ≤ tsize) (h2 : validSched tsize m2) (h3 : validSched tsize m3)
    (hc : ∀ t, (s.controls t).tid = t) (hok : s.allocOk = true) :
    (run_malloc tsize n m1 m2 m3 s).factory.shared_data = some s.next ∧
    (run_malloc tsize n m1 m2 m3 s).factory.sync = s.factory.sync ∧
    (run_malloc tsize n m1 m2 m3 s).factory.sync_data = s.factory.sync_data ∧
    (run_malloc tsize n m1 m2 m3 s).next = s.next + 1 ∧
    (run_malloc tsize n m1 m2 m3 s).live = s.next :: s.live ∧
    (run_malloc tsize n m1 m2 m3 s).allocOk = true ∧
    (run_malloc tsize n m1 m2 m3 s).controls = s.controls ∧
    (∀ t, 0 ≤ t → t < tsize → (run_malloc tsize n m1 m2 m3 s).locals t = some s.next) ∧
    (∀ t, ¬(0 ≤ t ∧ t < tsize) → (run_malloc tsize n m1 m2 m3 s).locals t = s.locals t) := by
  have hph0 : runPhase (malloc_phase s n 0) m1 s = s :=
    runPhase_nilProg _ (fun t => rfl) m1 s
  have hcount2 : m2.count 0 = 1 := by
    rw [validSched_count tsize m2 h2 0, if_pos (by omega)]
  have hside : ∀ t : Int, t ≠ 0 → malloc_phase s n 1 t = [] := by
    intro t htt
    show (if (s.controls t).tid = 0 then [Act.allocShared n] else []) = []
    rw [hc t, if_neg htt]
  have hph1 : runPhase (malloc_phase s n 1) m2 s = runThreadPhase (malloc_phase s n 1) s 0 :=
    runPhase_only0 _ hside m2 s hcount2
  have hact : runThreadPhase (malloc_phase s n 1) s 0
      = { s with factory := { s.factory with shared_data := some s.next },
                 next := s.next + 1, live := s.next :: s.live } := by
    have hp : malloc_phase s n 1 0 = [Act.allocShared n] := by
      show (if (s.controls 0).tid = 0 then [Act.allocShared n] else []) = _
      rw [hc 0, if_pos rfl]
    rw [runThreadPhase, hp]
    show runAct s (Act.allocShared n) = _
    simp only [runAct]
    rw [if_pos hok]
  have hread : ∀ t : Int, malloc_phase s n 2 t = [Act.readShared t] := by
    intro t
    show [Act.readShared (s.controls t).tid] = _
    rw [hc t]
  have hmain : run_malloc tsize n m1 m2 m3 s
      = runPhase (malloc_phase s n 2) m3
          { s with factory := { s.factory with shared_data := some s.next },
                   next := s.next + 1, live := s.next :: s.live } := by
    rw [run_malloc, hph0, hph1, hact]
  obtain ⟨sf, sn, sl, sa, sc⟩ := runPhase_reads_state (malloc_phase s n 2) hread m3
    { s with factory := { s.factory with shared_data := some s.next },
             next := s.next + 1, live := s.next :: s.live }
  refine ⟨?_, ?_, ?_, ?_, ?_, ?_, ?_, ?_, ?_⟩
  · rw [hmain, sf]
  · rw [hmain, sf]
  · rw [hmain, sf]
  · rw [hmain, sn]
  · rw [hmain, sl]
  · rw [hmain, sa]
    exact hok
  · rw [hmain, sc]
  · intro t h0 hlt
    rw [hmain, runPhase_reads_locals_mem (malloc_phase s n 2) hread m3 _ t
      ((validSched_mem tsize m3 h3 t).mpr ⟨h0, hlt⟩)]
  · intro t hno
    rw [hmain, runPhase_reads_locals_not_mem (malloc_phase s n 2) hread m3 _ t
      (fun hmem => hno ((validSched_mem tsize m3 h3 t).mp hmem))]

-- Full effect of the collective malloc when the allocation fails: the
-- null address is stored and every participant reads it; no error is
-- reported anywhere (the model has no error channel because the source
-- has none).
theorem run_malloc_spec_fail (tsize n : Int) (m1 m2 m3 : List Int) (s : MallocState)
    (ht : 1 ≤ tsize) (h2 : validSched tsize m2) (h3 : validSched tsize m3)
    (hc : ∀ t, (s.controls t).tid = t) (hfail : s.allocOk = false) :
    (run_malloc tsize n m1 m2 m3 s).factory.shared_data = none ∧
    (run_malloc tsize n m1 m2 m3 s).next = s.next ∧
    (run_malloc tsize n m1 m2 m3 s).live = s.live ∧
    (∀ t, 0 ≤ t → t < tsize → (run_malloc tsize n m1 m2 m3 s).locals t = none) := by
  have hph0 : runPhase (malloc_phase s n 0) m1 s = s :=
    runPhase_nilProg _ (fun t => rfl) m1 s
  have hcount2 : m2.count 0 = 1 := by
    rw [validSched_count tsize m2 h2 0, if_pos (by omega)]
  have hside : ∀ t : Int, t ≠ 0 → malloc_phase s n 1 t = [] := by
    intro t htt
    show (if (s.controls t).tid = 0 then [Act.allocShared n] else []) = []
    rw [hc t, if_neg htt]
  have hph1 : runPhase (malloc_phase s n 1) m2 s = runThreadPhase (malloc_phase s n 1) s 0 :=
    runPhase_only0 _ hside m2 s hcount2
  have hact : runThreadPhase (malloc_phase s n 1) s 0
      = { s with factory := { s.factory with shared_data := none } } := by
    have hp : malloc_phase s n 1 0 = [Act.allocShared n] := by
      show (if (s.controls 0).tid = 0 then [Act.allocShared n] else []) = _
      rw [hc 0, if_pos rfl]
    rw [runThreadPhase, hp]
    show runAct s (Act.allocShared n) = _
    simp only [runAct]
    rw [if_neg (by simp [hfail])]
  have hread : ∀ t : Int, malloc_phase s n 2 t = [Act.readShared t] := by
    intro t
    show [Act.readShared (s.controls t).tid] = _
    rw [hc t]
  have hmain : run_malloc tsize n m1 m2 m3 s
      = runPhase (malloc_phase s n 2) m3
          { s with factory := { s.factory with shared_data := none } } := by
    rw [run_malloc, hph0, hph1, hact]
  obtain ⟨sf, sn, sl, _, _⟩ := runPhase_reads_state (malloc_phase s n 2) hread m3
    { s with factory := { s.factory with shared_data := none } }
  refine ⟨?_, ?_, ?_, ?_⟩
  · rw [hmain, sf]
  · rw [hmain, sn]
  · rw [hmain, sl]
  · intro t h0 hlt
    rw [hmain, runPhase_reads_locals_mem (malloc_phase s n 2) hread m3 _ t
      ((validSched_mem tsize m3 h3 t).mpr ⟨h0, hlt⟩)]

-- The collective free never touches the factory, the controls, the local
-- pointers, or the allocator counter (no schedule assumptions needed).
theorem run_free_frame (ptrArg : Int → Option ℕ) (f1 f2 : List Int) (s : MallocState) :
    (run_free ptrArg f1 f2 s).factory = s.factory ∧
    (run_free ptrArg f1 f2 s).controls = s.controls ∧
    (run_free ptrArg f1 f2 s).locals = s.locals ∧
    (run_free ptrArg f1 f2 s).next = s.next ∧
    (run_free ptrArg f1 f2 s).allocOk = s.allocOk := by
  rw [run_free, runPhase_nilProg (free_phase s ptrArg 0) (fun t => rfl) f1 s]
  refine runPhase_free_frame _ (fun t => ?_) f2 s
  by_cases h : (s.controls t).tid = 0
  · refine Or.inr ⟨ptrArg t, ?_⟩
    show (if (s.controls t).tid = 0 then [Act.freeAddr (ptrArg t)] else []) = _
    rw [if_pos h]
  · refine Or.inl ?_
    show (if (s.controls t).tid = 0 then [Act.freeAddr (ptrArg t)] else []) = []
    rw [if_neg h]

-- The collective free releases exactly the address passed by thread 0.
theorem run_free_live (tsize : Int) (ptrArg : Int → Option ℕ) (f1 f2 : List Int)
    (s : MallocState) (ht : 1 ≤ tsize) (h2 : validSched tsize f2)
    (hc : ∀ t, (s.controls t).tid = t) :
    (run_free ptrArg f1 f2 s).live
      = match ptrArg 0 with
        | some a => s.live.erase a
        | none => s.live := by
  rw [run_free, runPhase_nilProg (free_phase s ptrArg 0) (fun t => rfl) f1 s]
  have hcount : f2.count 0 = 1 := by
    rw [validSched_count tsize f2 h2 0, if_pos (by omega)]
  have hside : ∀ t : Int, t ≠ 0 → free_phase s ptrArg 1 t = [] := by
    intro t htt
    show (if (s.controls t).tid = 0 then [Act.freeAddr (ptrArg t)] else []) = []
    rw [hc t, if_neg htt]
  rw [runPhase_only0 _ hside f2 s hcount]
  have hp : free_phase s ptrArg 1 0 = [Act.freeAddr (ptrArg 0)] := by
    show (if (s.controls 0).tid = 0 then [Act.freeAddr (ptrArg 0)] else []) = _
    rw [hc 0, if_pos rfl]
  rw [runThreadPhase, hp]
  show (runAct s (Act.freeAddr (ptrArg 0))).live = _
  cases ptrArg 0 <;> rfl

/-! The claims. -/

/-- C1: for tsize ≥ 1, vsize ≥ 0, when every thread tid of [0, tsize)
executes mylib_vector_dot once (in any order: the threads accumulate into
disjoint scratch slots), the final scalar written to *dotresult equals the
sum of v1[i]*v2[i] over i in [0, vsize), computed via the fixed reduction
order in which slot 0 accumulates slots 1..tsize-1 in increasing index
order (the order encoded in mylib_vector_dot_reduce); over exact rational
arithmetic the result is independent of the tsize partitioning (and of the
execution order and of the scratch buffer's initial junk contents). -/
theorem C1_dot_product_correct (sched : List Int) (tsize vsize : Int)
    (v1 v2 junk : Int → ℚ) (ht : 1 ≤ tsize) (hv : 0 ≤ vsize)
    (hs : validSched tsize sched) :
    mylib_vector_dot sched tsize v1 v2 vsize junk
      = (∑ i ∈ Finset.range vsize.toNat, v1 (i : Int) * v2 (i : Int)) ∧
    (∀ (sched2 : List Int) (tsize2 : Int) (junk2 : Int → ℚ), 1 ≤ tsize2 →
      validSched tsize2 sched2 →
      mylib_vector_dot sched2 tsize2 v1 v2 vsize junk2
        = mylib_vector_dot sched tsize v1 v2 vsize junk) := by
  refine ⟨dot_eq_sum sched tsize vsize v1 v2 junk ht hv hs, ?_⟩
  intro sched2 tsize2 junk2 ht2 hs2
  rw [dot_eq_sum sched2 tsize2 vsize v1 v2 junk2 ht2 hv hs2,
    dot_eq_sum sched tsize vsize v1 v2 junk ht hv hs]

/-- C1 witness: the spec's end-to-end scenario, tsize = 4, vsize = 10,
a = [0..9], b = [10, 9, ..., 1], arbitrary junk 5 in the scratch buffer. -/
theorem C1_dot_product_correct_witness :
    mylib_vector_dot [0, 1, 2, 3] 4 (fun i => (i : ℚ)) (fun i => (10 : ℚ) - (i : ℚ)) 10
        (fun _ => 5)
      = (∑ i ∈ Finset.range (10 : Int).toNat,
          ((i : Int) : ℚ) * ((10 : ℚ) - ((i : Int) : ℚ))) :=
  (C1_dot_product_correct [0, 1, 2, 3] 4 10 (fun i => (i : ℚ))
    (fun i => (10 : ℚ) - (i : ℚ)) (fun _ => 5) (by decide) (by decide) (by decide)).1

/-- C2: for tsize ≥ 1 and vsize ≥ 0, the per-thread half-open ranges
[begin_index, end_index) — with elements_per_thread = (vsize - 1) / tsize
+ 1 in truncating integer division — partition [0, vsize) exactly: every
index of [0, vsize) lies in exactly one thread's range (no gaps, no
overlaps). -/
theorem C2_ranges_partition (tsize vsize i : Int) (ht : 1 ≤ tsize) (hv : 0 ≤ vsize)
    (hi0 : 0 ≤ i) (hiv : i < vsize) :
    ∃! tid : Int, (0 ≤ tid ∧ tid < tsize) ∧
      begin_index tid vsize tsize ≤ i ∧ i < end_index tid vsize tsize := by
  have hv1 : (1 : Int) ≤ vsize := by omega
  obtain ⟨hlt, hbg, hen⟩ := natPartition_mem (natEpt vsize.toNat tsize.toNat) vsize.toNat
    tsize.toNat i.toNat (natEpt_pos _ _) (natEpt_bound _ _ (by omega)) (by omega)
  refine ⟨((i.toNat / natEpt vsize.toNat tsize.toNat : ℕ) : Int),
    ⟨⟨Int.ofNat_nonneg _, ?_⟩, ?_, ?_⟩, ?_⟩
  · calc ((i.toNat / natEpt vsize.toNat tsize.toNat : ℕ) : Int)
        < ((tsize.toNat : ℕ) : Int) := by exact_mod_cast hlt
      _ = tsize := by omega
  · rw [begin_index_eq _ vsize tsize ht hv1 (Int.ofNat_nonneg _), Int.toNat_natCast]
    omega
  · rw [end_index_eq _ vsize tsize ht hv1 (Int.ofNat_nonneg _), Int.toNat_natCast]
    omega
  · rintro tid' ⟨⟨h0', hlt'⟩, hb', he'⟩
    rw [begin_index_eq tid' vsize tsize ht hv1 h0'] at hb'
    rw [end_index_eq tid' vsize tsize ht hv1 h0'] at he'
    have hq := natPartition_unique (natEpt vsize.toNat tsize.toNat) vsize.toNat i.toNat
      tid'.toNat (natEpt_pos _ _) (by omega) (by omega)
    rw [show tid' = ((tid'.toNat : ℕ) : Int) from by omega, hq]

/-- C2 witness: the spec's uneven scenario tsize = 3, vsize = 10 at the
concrete index 5 (it lies in thread 1's range [4, 8) and no other). -/
theorem C2_ranges_partition_witness :
    ∃! tid : Int, (0 ≤ tid ∧ tid < 3) ∧
      begin_index tid 10 3 ≤ 5 ∧ 5 < end_index tid 10 3 :=
  C2_ranges_partition 3 10 5 (by decide) (by decide) (by decide) (by decide)

/-- C3: for tsize ≥ 1, vsize ≥ 0 and any execution order of the threads,
after every thread tid of [0, tsize) has executed mylib_vector_add once,
vresult[i] = v1[i] + v2[i] holds for every index i of [0, vsize). -/
theorem C3_vector_add_correct (sched : List Int) (tsize vsize i : Int)
    (v1 v2 vresult : Int → ℚ) (ht : 1 ≤ tsize) (hs : validSched tsize sched)
    (hi0 : 0 ≤ i) (hiv : i < vsize) :
    run_vector_add sched tsize v1 v2 vresult vsize i = v1 i + v2 i := by
  obtain ⟨t, htm, hti⟩ := exists_owner tsize vsize i ht hi0 hiv
  have hmem : t ∈ sched :=
    (validSched_mem tsize sched hs t).mpr ((mem_threadIds tsize t).mp htm)
  rw [run_vector_add_eval, if_pos ⟨t, hmem, hti⟩]

/-- C3 witness: the spec's end-to-end scenario tsize = 4, vsize = 10,
a = [0..9], b = [10, 9, ..., 1], evaluated at index 7 with the threads
deliberately run out of order. -/
theorem C3_vector_add_correct_witness :
    run_vector_add [3, 1, 0, 2] 4 (fun i => (i : ℚ)) (fun i => (10 : ℚ) - (i : ℚ))
        (fun _ => 0) 10 7
      = (fun i => (i : ℚ)) 7 + (fun i => (10 : ℚ) - (i : ℚ)) 7 :=
  C3_vector_add_correct [3, 1, 0, 2] 4 10 7 (fun i => (i : ℚ))
    (fun i => (10 : ℚ) - (i : ℚ)) (fun _ => 0) (by decide) (by decide) (by decide)
    (by decide)

theorem rangeSize_eq (tid vsize tsize : Int) :
    rangeSize tid vsize tsize
      = (end_index tid vsize tsize - begin_index tid vsize tsize).toNat := by
  rw [rangeSize, loopIndices, List.length_map, List.length_range]

theorem natSize_mono (e v k1 k2 : ℕ) (h : k1 ≤ k2) :
    natEnd e v k2 - natBegin e k2 ≤ natEnd e v k1 - natBegin e k1 := by
  have hm : k1 * e ≤ k2 * e := Nat.mul_le_mul_right e h
  have e1 : (k1 + 1) * e = k1 * e + e := by ring
  have e2 : (k2 + 1) * e = k2 * e + e := by ring
  rw [natEnd, natEnd, natBegin, natBegin, e1, e2]
  generalize k1 * e = B1 at hm ⊢
  generalize k2 * e = B2 at hm ⊢
  omega

theorem natSize_le (e v k : ℕ) : natEnd e v k - natBegin e k ≤ e := by
  have e1 : (k + 1) * e = k * e + e := by ring
  rw [natEnd, natBegin, e1]
  generalize k * e = B
  omega

/-- C5 counterexample: with tsize = 3 and vsize = 10 (the spec's own
uneven-division scenario, ranges [0,4), [4,8), [8,10)), thread 0's range
has 4 elements while thread 2's has 2 — they differ by 2, refuting "the
sizes differ pairwise by at most one". -/
theorem C5_range_sizes_counterexample :
    rangeSize 0 10 3 = 4 ∧ rangeSize 2 10 3 = 2 ∧
      ¬ (rangeSize 0 10 3 ≤ rangeSize 2 10 3 + 1) := by decide

/-- C5 amended: the per-thread range sizes are non-increasing in tid and
each is at most elements_per_thread = (vsize - 1) / tsize + 1; hence two
threads' range sizes differ by at most elements_per_thread — not by at
most one (the bound one is violated, e.g., at tsize = 3, vsize = 10,
where the sizes are 4, 4, 2). -/
theorem C5_range_sizes_amended (tsize vsize t1 t2 : Int) (ht : 1 ≤ tsize)
    (hv : 0 ≤ vsize) (h1 : 0 ≤ t1) (h12 : t1 ≤ t2) (h2 : t2 < tsize) :
    rangeSize t2 vsize tsize ≤ rangeSize t1 vsize tsize ∧
    (rangeSize t1 vsize tsize : Int) ≤ elements_per_thread vsize tsize := by
  rcases lt_or_le 0 vsize with hv1 | hv1
  · have key : ∀ t : Int, 0 ≤ t → rangeSize t vsize tsize
        = natEnd (natEpt vsize.toNat tsize.toNat) vsize.toNat t.toNat
          - natBegin (natEpt vsize.toNat tsize.toNat) t.toNat := by
      intro t h0
      rw [rangeSize_eq, begin_index_eq t vsize tsize ht hv1 h0,
        end_index_eq t vsize tsize ht hv1 h0]
      omega
    rw [key t1 h1, key t2 (by omega)]
    refine ⟨natSize_mono _ _ _ _ (by omega), ?_⟩
    rw [ept_eq_natEpt vsize tsize ht hv1]
    exact_mod_cast natSize_le _ _ _
  · have hv0 : vsize = 0 := by omega
    subst hv0
    have kz : ∀ t : Int, 0 ≤ t → rangeSize t 0 tsize = 0 := by
      intro t h0
      rw [rangeSize, loopIndices_vzero t tsize ht h0]
      rfl
    rw [kz t1 h1, kz t2 (by omega)]
    refine ⟨le_rfl, ?_⟩
    simpa using ept_nonneg 0 tsize ht le_rfl

/-- C5 amended witness: at tsize = 3, vsize = 10, thread 2's size (2) is at
most thread 0's size (4), which is at most elements_per_thread (4). -/
theorem C5_range_sizes_amended_witness :
    rangeSize 2 10 3 ≤ rangeSize 0 10 3 ∧
      (rangeSize 0 10 3 : Int) ≤ elements_per_thread 10 3 :=
  C5_range_sizes_amended 3 10 0 2 (by decide) (by decide) (by decide) (by decide)
    (by decide)

/-- C6: for all tsize ≥ 1, 0 ≤ tid < tsize and vsize ≥ 0 (including
tsize > vsize and vsize = 0), every index of the vector loops of
mylib_vector_add and of the accumulation loop of mylib_vector_dot lies in
[0, vsize); a thread whose computed range is empty has an empty loop index
list, i.e. performs no vector read or write at all (both loops iterate
exactly over loopIndices). -/
theorem C6_accesses_in_bounds (tsize vsize tid : Int) (ht : 1 ≤ tsize) (hv : 0 ≤ vsize)
    (h0 : 0 ≤ tid) (hts : tid < tsize) :
    (∀ i ∈ loopIndices tid vsize tsize, 0 ≤ i ∧ i < vsize) ∧
    (end_index tid vsize tsize ≤ begin_index tid vsize tsize →
      loopIndices tid vsize tsize = []) := by
  constructor
  · intro i hi
    rw [loopIndices_mem] at hi
    have hb := begin_index_nonneg tid vsize tsize ht hv h0
    have he := end_index_le tid vsize tsize
    omega
  · intro hle
    rw [loopIndices,
      show (end_index tid vsize tsize - begin_index tid vsize tsize).toNat = 0 from by omega]
    rfl

/-- C6 witness: index 9 accessed by thread 2 of the tsize = 3, vsize = 10
split is in bounds, and in the boundary scenario tsize = 8, vsize = 3 the
thread tid = 5 has an empty loop (no access at all). -/
theorem C6_accesses_in_bounds_witness :
    ((0 : Int) ≤ 9 ∧ (9 : Int) < 10) ∧ loopIndices 5 3 8 = [] := by
  refine ⟨?_, ?_⟩
  · exact (C6_accesses_in_bounds 3 10 2 (by decide) (by decide) (by decide)
      (by decide)).1 9 (by decide)
  · exact (C6_accesses_in_bounds 8 3 5 (by decide) (by decide) (by decide)
      (by decide)).2 (by decide)

/-- C4: for every control with 0 ≤ tid < tsize and every num_bytes,
mylib_ThreadControl_malloc performs exactly one sync, then — only when
tid = 0 — one allocation of num_bytes whose address is stored into the
factory's shared_data slot (threads with tid ≠ 0 have no allocation step,
and exactly one address is allocated in total), then a second sync, then
every participant reads factory.shared_data into its *ptr, so every
participant ends with the same shared address.  The first conjunct is the
exact per-thread event structure (the two inner list boundaries are the
two sync calls); the state conclusions hold for every intra-phase
schedule. -/
theorem C4_malloc_protocol (tsize n : Int) (m1 m2 m3 : List Int) (s : MallocState)
    (tid : Int) (ht : 1 ≤ tsize) (h1 : validSched tsize m1) (h2 : validSched tsize m2)
    (h3 : validSched tsize m3) (hc : ∀ t, (s.controls t).tid = t)
    (hok : s.allocOk = true) :
    (mylib_ThreadControl_malloc_phases (s.controls tid) n
      = if tid = 0 then [[], [Act.allocShared n], [Act.readShared 0]]
        else [[], [], [Act.readShared tid]]) ∧
    (run_malloc tsize n m1 m2 m3 s).factory.shared_data = some s.next ∧
    (run_malloc tsize n m1 m2 m3 s).next = s.next + 1 ∧
    (run_malloc tsize n m1 m2 m3 s).live = s.next :: s.live ∧
    (∀ t, 0 ≤ t → t < tsize → (run_malloc tsize n m1 m2 m3 s).locals t = some s.next) := by
  obtain ⟨c1, _, _, c4, c5, _, _, c8, _⟩ :=
    run_malloc_spec_ok tsize n m1 m2 m3 s ht h2 h3 hc hok
  refine ⟨?_, c1, c4, c5, c8⟩
  rw [mylib_ThreadControl_malloc_phases, hc tid]
  by_cases h : tid = 0
  · subst h
    rw [if_pos rfl, if_pos rfl]
  · rw [if_neg h, if_neg h]

/-- C4 witness: two threads, 8 requested bytes, scheduled out of order in
the later phases; both threads end up with the allocated address 0. -/
theorem C4_malloc_protocol_witness :
    (run_malloc 2 8 [0, 1] [1, 0] [1, 0] sampleState).locals 1 = some 0 ∧
    (run_malloc 2 8 [0, 1] [1, 0] [1, 0] sampleState).factory.shared_data = some 0 := by
  obtain ⟨_, hsd, _, _, hl⟩ := C4_malloc_protocol 2 8 [0, 1] [1, 0] [1, 0] sampleState 1
    (by decide) (by decide) (by decide) (by decide) (fun t => rfl) rfl
  exact ⟨hl 1 (by decide) (by decide), hsd⟩

/-- C9: mylib_ThreadControl_free performs one sync and then releases the
passed address only on the thread with tid = 0 (first conjunct: the event
structure has one phase boundary — the single sync — and a free step only
in thread 0's program); and after every participant performs
mylib_ThreadControl_malloc immediately followed by mylib_ThreadControl_free
of the returned address on the same control, the factory's shared-buffer
slot is unallocated again: the live-allocation set is back to its
pre-malloc contents and the address remaining in the slot is not a live
allocation.  ("Unallocated" refers to the heap allocation the slot hands
out; claim C10 records that the slot field itself still holds the stale
address — the code never nulls it.) -/
theorem C9_free_protocol (tsize n : Int) (m1 m2 m3 f1 f2 : List Int) (s : MallocState)
    (tid : Int) (p : Option ℕ) (ht : 1 ≤ tsize) (h1 : validSched tsize m1)
    (h2 : validSched tsize m2) (h3 : validSched tsize m3) (h4 : validSched tsize f1)
    (h5 : validSched tsize f2) (hc : ∀ t, (s.controls t).tid = t)
    (hok : s.allocOk = true) (hfresh : ∀ a ∈ s.live, a < s.next) :
    (mylib_ThreadControl_free_phases (s.controls tid) p
      = if tid = 0 then [[], [Act.freeAddr p]] else [[], []]) ∧
    (run_malloc_then_free tsize n m1 m2 m3 f1 f2 s).live = s.live ∧
    (∃ a : ℕ,
      (run_malloc_then_free tsize n m1 m2 m3 f1 f2 s).factory.shared_data = some a ∧
      a ∉ (run_malloc_then_free tsize n m1 m2 m3 f1 f2 s).live) := by
  obtain ⟨c1, _, _, _, c5, _, c7, c8, _⟩ :=
    run_malloc_spec_ok tsize n m1 m2 m3 s ht h2 h3 hc hok
  have hc2 : ∀ t, ((run_malloc tsize n m1 m2 m3 s).controls t).tid = t := by
    intro t
    rw [c7]
    exact hc t
  have hmain : run_malloc_then_free tsize n m1 m2 m3 f1 f2 s
      = run_free (fun t => (run_malloc tsize n m1 m2 m3 s).locals t) f1 f2
          (run_malloc tsize n m1 m2 m3 s) := rfl
  have hlive : (run_malloc_then_free tsize n m1 m2 m3 f1 f2 s).live = s.live := by
    rw [hmain, run_free_live tsize _ f1 f2 _ ht h5 hc2, c8 0 le_rfl (by omega)]
    show (run_malloc tsize n m1 m2 m3 s).live.erase s.next = s.live
    rw [c5]
    exact List.erase_cons_head s.next s.live
  obtain ⟨ff, _, _, _, _⟩ :=
    run_free_frame (fun t => (run_malloc tsize n m1 m2 m3 s).locals t) f1 f2
      (run_malloc tsize n m1 m2 m3 s)
  refine ⟨?_, hlive, ⟨s.next, ?_, ?_⟩⟩
  · rw [mylib_ThreadControl_free_phases, hc tid]
    by_cases h : tid = 0
    · subst h
      rw [if_pos rfl, if_pos rfl]
    · rw [if_neg h, if_neg h]
  · rw [hmain, ff]
    exact c1
  · rw [hlive]
    intro hmem
    exact absurd (hfresh s.next hmem) (by omega)

/-- C9 witness: two threads, malloc immediately followed by free of the
returned address; afterwards no allocation is live and the (stale) address
in the slot is not live. -/
theorem C9_free_protocol_witness :
    (run_malloc_then_free 2 8 [0, 1] [0, 1] [0, 1] [1, 0] [0, 1] sampleState).live = [] ∧
    (∃ a : ℕ,
      (run_malloc_then_free 2 8 [0, 1] [0, 1] [0, 1] [1, 0]
          [0, 1] sampleState).factory.shared_data = some a ∧
      a ∉ (run_malloc_then_free 2 8 [0, 1] [0, 1] [0, 1] [1, 0]
          [0, 1] sampleState).live) := by
  obtain ⟨_, hlive, hex⟩ := C9_free_protocol 2 8 [0, 1] [0, 1] [0, 1] [1, 0] [0, 1]
    sampleState 0 none (by decide) (by decide) (by decide) (by decide) (by decide)
    (by decide) (fun t => rfl) rfl (by decide)
  exact ⟨hlive, hex⟩

/-- C10: for every pointer argument, every schedule and every state,
mylib_ThreadControl_free leaves every field of every ThreadControl
(tid, tsize, shared_context) and of the ThreadFactory (sync, sync_data,
shared_data) unchanged, as well as every thread's local pointer and the
allocator counter — it only shrinks the live-allocation set; in
particular, after malloc immediately followed by free, factory.shared_data
still holds the address of the just-released buffer — it is not reset to
null or cleared. -/
theorem C10_free_frame (tsize n : Int) (m1 m2 m3 f1 f2 : List Int) (s : MallocState)
    (ht : 1 ≤ tsize) (h2 : validSched tsize m2) (h3 : validSched tsize m3)
    (hc : ∀ t, (s.controls t).tid = t) (hok : s.allocOk = true) :
    (∀ (ptrArg : Int → Option ℕ) (g1 g2 : List Int) (st : MallocState),
      (run_free ptrArg g1 g2 st).factory = st.factory ∧
      (run_free ptrArg g1 g2 st).controls = st.controls ∧
      (run_free ptrArg g1 g2 st).locals = st.locals ∧
      (run_free ptrArg g1 g2 st).next = st.next) ∧
    (run_malloc_then_free tsize n m1 m2 m3 f1 f2 s).factory.shared_data = some s.next := by
  constructor
  · intro ptrArg g1 g2 st
    obtain ⟨a1, a2, a3, a4, _⟩ := run_free_frame ptrArg g1 g2 st
    exact ⟨a1, a2, a3, a4⟩
  · obtain ⟨c1, _, _, _, _, _, _, _, _⟩ :=
      run_malloc_spec_ok tsize n m1 m2 m3 s ht h2 h3 hc hok
    obtain ⟨ff, _, _, _, _⟩ :=
      run_free_frame (fun t => (run_malloc tsize n m1 m2 m3 s).locals t) f1 f2
        (run_malloc tsize n m1 m2 m3 s)
    rw [show run_malloc_then_free tsize n m1 m2 m3 f1 f2 s
      = run_free (fun t => (run_malloc tsize n m1 m2 m3 s).locals t) f1 f2
          (run_malloc tsize n m1 m2 m3 s) from rfl, ff]
    exact c1

/-- C10 witness: a concrete free run leaves the factory of the sample
state untouched, and after the concrete malloc-then-free the shared slot
still holds the released address 0. -/
theorem C10_free_frame_witness :
    (run_free (fun _ => none) [0, 1] [0, 1] sampleState).factory = sampleState.factory ∧
    (run_malloc_then_free 2 8 [0, 1] [0, 1] [0, 1] [0, 1]
        [1, 0] sampleState).factory.shared_data = some 0 := by
  obtain ⟨hframe, hsd⟩ := C10_free_frame 2 8 [0, 1] [0, 1] [0, 1] [0, 1] [1, 0]
    sampleState (by decide) (by decide) (by decide) (fun t => rfl) rfl
  exact ⟨(hframe (fun _ => none) [0, 1] [0, 1] sampleState).1, hsd⟩

/-- C7 counterexample: allocation failure is never surfaced as an error to
the caller.  At the concrete failing input (the allocator returns null),
mylib_ThreadFactory_create returns the very same (indeterminate) value as
in the succeeding run — the caller cannot observe any AllocationError —
while storing the null pointer; and mylib_ThreadFactory_create_control
dereferences the null allocation, producing no result at all (a crash)
rather than an error return. -/
theorem C7_alloc_error_counterexample :
    (mylib_ThreadFactory_create none 0).2
      = (mylib_ThreadFactory_create
          (some { sync := none, sync_data := none, shared_data := none }) 0).2 ∧
    (mylib_ThreadFactory_create none 0).1 = none ∧
    mylib_ThreadFactory_create_control (some 0) none 5 = none :=
  ⟨rfl, rfl, rfl⟩

/-- C7 amended: when memory cannot be obtained, no allocating operation
reports an AllocationError.  mylib_ThreadFactory_create stores the null
result and returns a value independent of the outcome (the function has no
return statement); mylib_ThreadFactory_create_control dereferences the
null allocation, so it produces no result instead of an error; a failed
scratch allocation inside mylib_ThreadControl_malloc stores null in the
factory's shared_data and every participant reads the null address, with
no error indication anywhere. -/
theorem C7_alloc_failure_amended (tsize n : Int) (m1 m2 m3 : List Int) (s : MallocState)
    (F : mylib_ThreadFactory) (tf : Option ℕ) (g : Int)
    (ht : 1 ≤ tsize) (h2 : validSched tsize m2) (h3 : validSched tsize m3)
    (hc : ∀ t, (s.controls t).tid = t) (hfail : s.allocOk = false) :
    (mylib_ThreadFactory_create none g).2 = g ∧
    (mylib_ThreadFactory_create (some F) g).2 = g ∧
    (mylib_ThreadFactory_create none g).1 = none ∧
    mylib_ThreadFactory_create_control tf none g = none ∧
    (run_malloc tsize n m1 m2 m3 s).factory.shared_data = none ∧
    (∀ t, 0 ≤ t → t < tsize → (run_malloc tsize n m1 m2 m3 s).locals t = none) := by
  obtain ⟨d1, _, _, d4⟩ := run_malloc_spec_fail tsize n m1 m2 m3 s ht h2 h3 hc hfail
  exact ⟨rfl, rfl, rfl, rfl, d1, d4⟩

/-- C7 amended witness: with a failing allocator, thread 0's malloc result
is the null address, and create's return value is the unconstrained 7. -/
theorem C7_alloc_failure_amended_witness :
    (run_malloc 2 8 [0, 1] [0, 1] [0, 1] sampleStateFail).locals 0 = none ∧
    (mylib_ThreadFactory_create none 7).2 = 7 := by
  obtain ⟨e1, _, _, _, _, e6⟩ := C7_alloc_failure_amended 2 8 [0, 1] [0, 1] [0, 1]
    sampleStateFail { sync := none, sync_data := none, shared_data := none } none 7
    (by decide) (by decide) (by decide) (fun t => rfl) rfl
  exact ⟨e6 0 (by decide) (by decide), e1⟩

/-- C8 counterexample: mylib_ThreadFactory_create performs no field
initialization (its body is a single malloc), so when the allocation's
indeterminate contents happen to be sync = some 1, sync_data = some 2,
shared_data = some 3, the created factory's shared-buffer slot is not
empty — refuting the claim that sync, sync_data and shared_data are
null rather than indeterminate. -/
theorem C8_create_not_empty_counterexample :
    (mylib_ThreadFactory_create
        (some { sync := some 1, sync_data := some 2, shared_data := some 3 }) 0).1
      = some { sync := some 1, sync_data := some 2, shared_data := some 3 } ∧
    ({ sync := some 1, sync_data := some 2, shared_data := some 3 } :
        mylib_ThreadFactory).shared_data ≠ none :=
  ⟨rfl, by decide⟩

/-- C8 amended: mylib_ThreadFactory_create yields a factory whose fields
hold exactly the indeterminate contents of the allocation: create itself
registers no callback, sets no auxiliary data and does not clear the
shared-buffer slot (the driver assigns the fields after creation, as the
backend programs do); on allocation failure the stored pointer is null. -/
theorem C8_create_no_init (junk : mylib_ThreadFactory) (g : Int) :
    (mylib_ThreadFactory_create (some junk) g).1 = some junk ∧
    (mylib_ThreadFactory_create none g).1 = none :=
  ⟨rfl, rfl⟩

end Mylib
